import Mathlib

/-!
Shallow embedding of src/main.py of the Crypto-Buyer repository.

Monetary amounts and venue quantities are modelled as rationals. Venue
responses (portfolio listings, balances, product metadata, order
placement, fill polling) are supplied as explicit values, with
`Except String` modelling a Python exception carrying the message
`type(e).__name__ + ": " + str(e)`. The per-instrument loop of `main`
(lines 507-558) becomes a pure state-passing function over the
remaining-budget state; log rows keep their Action, Product, QuoteUSD,
BaseQty, OrderID, Status and Note columns, with the timestamp column and
the numeric string formatting of cells abstracted away (cells hold the
numbers themselves).
-/

namespace CryptoBuyer

/-- Decimal literal with value k * 10 ^ (-d): the shape that str(step)
takes when Python renders a non-negative float step, d being the number
of digits after the decimal point. Decimal(str(step)) in the source
carries exactly the exponent -d and the coefficient k. -/
structure DecLit where
  k : ℕ
  d : ℕ
deriving DecidableEq

/-- Numeric value of a decimal literal. -/
def DecLit.val (s : DecLit) : ℚ := (s.k : ℚ) / 10 ^ s.d

/-- Rounding toward zero: the ROUND_DOWN mode installed globally by
getcontext().rounding = ROUND_DOWN at src/main.py line 41. -/
def truncq (y : ℚ) : ℤ := if 0 ≤ y then ⌊y⌋ else ⌈y⌉

/-- quantize_down (src/main.py lines 100-102):
Decimal(str(x)).quantize(Decimal(str(step))) under ROUND_DOWN.
Decimal.quantize rounds its receiver to the EXPONENT of its argument, so
only the fractional digit count step.d of the literal matters; the
coefficient step.k plays no role. -/
def quantize_down (x : ℚ) (step : DecLit) : ℚ :=
  ((truncq (x * 10 ^ step.d) : ℤ) : ℚ) / 10 ^ step.d

/-- Python str.strip with the whitespace default: drop leading and
trailing whitespace characters. -/
def py_strip (s : String) : String :=
  ⟨((s.data.dropWhile Char.isWhitespace).reverse.dropWhile Char.isWhitespace).reverse⟩

/-- Python str.upper, per-character case folding. -/
def py_upper (s : String) : String :=
  ⟨s.data.map Char.toUpper⟩

/-- Python str.lower, per-character case folding. -/
def py_lower (s : String) : String :=
  ⟨s.data.map Char.toLower⟩

/-- Product constraints as decoded by fetch_product_rules (src/main.py
lines 395-401). The quote increment is kept as the decimal literal the
venue reported, since quantize_down only consumes its digit count. -/
structure ProductRules where
  base_inc : ℚ
  quote_inc : DecLit
  min_quote : ℚ
  min_base : ℚ
deriving DecidableEq

/-- Venue response for get_product. Each field stands for the first
present, non-empty alias that g() would resolve (for example
quote_increment / quote_size_increment / quote_min_size); none means
every alias is absent so the coded default applies. -/
structure ProductMeta where
  base_increment : Option ℚ
  quote_increment : Option DecLit
  min_market_funds : Option ℚ
  min_order_size : Option ℚ

/-- Field extraction with defaults, mirroring src/main.py lines 397-400:
base 1e-8, quote 0.01 (literal with two fractional digits), minimum
quote notional 1.00, minimum base size 1e-8. -/
def rules_of_meta (m : ProductMeta) : ProductRules :=
  ⟨m.base_increment.getD (1 / 10 ^ 8), m.quote_increment.getD ⟨1, 2⟩,
   m.min_market_funds.getD 1, m.min_order_size.getD (1 / 10 ^ 8)⟩

/-- fetch_product_rules (src/main.py lines 395-401) applied to the one
get_product response it requests; an exception in that call propagates
because the function body has no handler. -/
def fetch_product_rules (resp : Except String ProductMeta) : Except String ProductRules :=
  resp.map rules_of_meta

/-- The interaction of fetch_product_rules with a venue whose responses
are indexed by attempt number: the source performs exactly one call
(line 396), namely attempt 0. -/
def fetch_product_rules_run (venue : ℕ → Except String ProductMeta) :
    Except String ProductRules :=
  fetch_product_rules (venue 0)

/-- Modelled from the spec: section 4.7 claims a retry policy wraps every
venue call, retrying transient failures (rate limiting among them) up to
a fixed attempt count. No such wrapper exists anywhere in src/main.py.
This proposition is the instance of that claim for the product-rules
fetch: if attempt 0 fails with a rate-limit message and every later
attempt succeeds, a retried call must succeed. -/
def spec_retry_for_fetch : Prop :=
  ∀ (venue : ℕ → Except String ProductMeta) (m : ProductMeta),
    venue 0 = Except.error "429 rate limit exceeded" →
    (∀ i, 1 ≤ i → venue i = Except.ok m) →
    fetch_product_rules_run venue = Except.ok (rules_of_meta m)

/-- Round half to even, the rounding Python string formatting applies:
nearest integer, ties resolved to the even neighbour. -/
def round_half_even (y : ℚ) : ℤ :=
  if y - ⌊y⌋ < 1 / 2 then ⌊y⌋
  else if y - ⌊y⌋ > 1 / 2 then ⌊y⌋ + 1
  else if 2 ∣ ⌊y⌋ then ⌊y⌋ else ⌊y⌋ + 1

/-- The two-decimal serialization f-string at src/main.py line 420,
quote_size=f-format of usd with .2f: round half to even at two decimal
places. -/
def fmt2 (x : ℚ) : ℚ := ((round_half_even (x * 100) : ℤ) : ℚ) / 100

/-- The notional actually handed to market_order_buy by place_buy:
line 415 computes usd = max(min_quote, quantize_down(usd, quote_inc))
and line 420 serializes it as quote_size=f-format of usd with .2f, so
the wire amount is the two-decimal half-even rounding of that maximum.
For quote increments with three or more fractional digits the
serialization can round UP, above the quantized value. -/
def place_buy_notional (usd : ℚ) (quote_inc : DecLit) (min_quote : ℚ) : ℚ :=
  fmt2 (max min_quote (quantize_down usd quote_inc))

/-- One appended log row (LOG_HEADERS, src/main.py line 46) without the
timestamp column; empty numeric cells are none. -/
structure LogRow where
  action : String
  product : String
  quoteUSD : Option ℚ
  baseQty : Option ℚ
  orderId : String
  status : String
  note : String
deriving DecidableEq

/-- The environment-derived configuration globals of src/main.py
lines 19-36 that the engine reads. -/
structure Config where
  pct : ℚ
  minNotional : ℚ
  autoConvert : Bool
  enableCostSheet : Bool
  dryRun : Bool
  autoSweep : Bool
  sweepMin : ℚ
deriving DecidableEq

/-- Venue behaviour for one iteration of the instrument loop: the
get_product response for the loop-level fetch (line 514), the balance
read inside ensure_usd_liquidity_for (line 379), the _convert outcome,
the balance re-read after conversion (line 521), the place_buy result
(order id, or the exception any of its internals raise), and the value
poll_fills_sum returns (it catches every exception internally and so
never raises, line 447). -/
structure InstrEnv where
  fetch : Except String ProductMeta
  ensureBal : Except String (ℚ × ℚ)
  convertOk : Bool
  refreshBal : Except String (ℚ × ℚ)
  place : Except String String
  poll : ℚ × ℚ

/-- Terminal disposition of one instrument: skipped below minimum,
errored with the caught exception message, or an order submitted with
the aggregated base quantity and the quote value the loop uses
(the polled value when positive, else the planned notional). -/
inductive Outcome where
  | skipped
  | errored (msg : String)
  | bought (base_qty fill_usd : ℚ)
deriving DecidableEq

/-- Observable result of processing one instrument: the remaining budget
afterwards, the log rows appended, the upsert_cost invocations made
(product, added quantity, added cost), the amount subtracted from the
budget (0 when nothing was), and the terminal outcome. -/
structure StepResult where
  remaining : ℚ
  rows : List LogRow
  upserts : List (String × ℚ × ℚ)
  spend : ℚ
  outcome : Outcome
deriving DecidableEq

/-- Quote currency of a product id, src/main.py line 376:
(pid.split("-")[-1] if "-" in pid else "").upper(). -/
def quote_ccy (pid : String) : String :=
  if pid.data.any (fun c => c == '-') then
    py_upper ⟨(pid.data.reverse.takeWhile (fun c => !(c == '-'))).reverse⟩
  else ""

/-- The CRYPTO-BUY-ERROR row appended at src/main.py line 558. -/
def error_row (pid msg : String) : LogRow :=
  ⟨"CRYPTO-BUY-ERROR", pid, none, none, "", "ERROR", msg⟩

/-- The CRYPTO-BUY-SKIP row appended at src/main.py line 529. -/
def skip_row (pid : String) (planned : ℚ) : LogRow :=
  ⟨"CRYPTO-BUY-SKIP", pid, some planned, none, "", "SKIPPED", "below minimum"⟩

/-- ensure_usd_liquidity_for (src/main.py lines 370-390). Returns the
log rows it appends, or the exception propagating out of its balance
read; _convert swallows its own exceptions and just reports failure. -/
def ensure_usd_liquidity_for (cfg : Config) (env : InstrEnv) (pid : String)
    (need_usd : ℚ) : Except String (List LogRow) :=
  if cfg.autoConvert = false ∨ need_usd ≤ 0 then Except.ok []
  else if quote_ccy pid ≠ "USD" then Except.ok []
  else
    match env.ensureBal with
    | Except.error e => Except.error e
    | Except.ok bal =>
      let shortfall := max 0 (need_usd - bal.1)
      if shortfall ≤ 0 ∨ bal.2 ≤ 0 then Except.ok []
      else
        let to_convert := min bal.2 shortfall
        let status := if cfg.dryRun then "dry-run"
                      else if env.convertOk then "submitted" else "error"
        Except.ok [⟨"CRYPTO-CONVERT", pid, some to_convert, none, "", status,
                    "convert USDC to USD"⟩]

/-- The submit-and-confirm tail of the loop body, src/main.py
lines 526-551, entered with the (possibly refreshed) remaining budget,
planned notional and rows already appended by the convert branch.
place_buy returns "DRYRUN" without any venue call under dry-run
(line 413); poll_fills_sum returns zeros under dry-run (line 426). -/
def buy_phase (cfg : Config) (env : InstrEnv) (pid : String)
    (rem planned min_required : ℚ) (rows0 : List LogRow) : StepResult :=
  if planned < min_required then
    ⟨rem, rows0 ++ [skip_row pid planned], [], 0, Outcome.skipped⟩
  else
    match (if cfg.dryRun then Except.ok "DRYRUN" else env.place) with
    | Except.error e => ⟨rem, rows0 ++ [error_row pid e], [], 0, Outcome.errored e⟩
    | Except.ok oid =>
      let fills := if cfg.dryRun then ((0 : ℚ), (0 : ℚ)) else env.poll
      let base_qty := fills.1
      let fill_usd := if fills.2 > 0 then fills.2 else planned
      let spend := if fill_usd ≠ 0 then fill_usd else planned
      let status := if cfg.dryRun then "dry-run" else "submitted"
      ⟨max 0 (rem - spend),
       rows0 ++ [⟨"CRYPTO-BUY", pid, some planned,
                  if base_qty ≠ 0 then some base_qty else none, oid, status, ""⟩],
       if cfg.enableCostSheet = true ∧ cfg.dryRun = false ∧ 0 < base_qty ∧ 0 < fill_usd
       then [(pid, base_qty, fill_usd)] else [],
       spend, Outcome.bought base_qty fill_usd⟩

/-- One iteration of the instrument loop, src/main.py lines 508-558:
plan the notional, fetch product rules, possibly convert USDC into USD
and re-read balances (which RESETS remaining_usd to the fresh balance,
line 522), then skip, submit or error. Any exception in the body yields
the single CRYPTO-BUY-ERROR row of line 558 and leaves the loop to
continue. -/
def process_instrument (cfg : Config) (env : InstrEnv) (pid : String)
    (remaining_usd : ℚ) : StepResult :=
  match env.fetch with
  | Except.error e => ⟨remaining_usd, [error_row pid e], [], 0, Outcome.errored e⟩
  | Except.ok meta =>
    let planned := remaining_usd * (cfg.pct / 100)
    let min_required := max cfg.minNotional (rules_of_meta meta).min_quote
    if planned < min_required ∧ cfg.autoConvert = true then
      match ensure_usd_liquidity_for cfg env pid (min_required - planned) with
      | Except.error e =>
          ⟨remaining_usd, [error_row pid e], [], 0, Outcome.errored e⟩
      | Except.ok convRows =>
        match env.refreshBal with
        | Except.error e =>
            ⟨remaining_usd, convRows ++ [error_row pid e], [], 0, Outcome.errored e⟩
        | Except.ok bal =>
            buy_phase cfg env pid bal.1 (bal.1 * (cfg.pct / 100)) min_required convRows
    else
      buy_phase cfg env pid remaining_usd planned min_required []

/-- The whole instrument loop: fold process_instrument over the screener
products, one InstrEnv per instrument, threading remaining_usd. Returns
the final remaining budget and the per-instrument results in order. -/
def run_loop (cfg : Config) : List (String × InstrEnv) → ℚ → ℚ × List StepResult
  | [], r => (r, [])
  | pe :: rest, r =>
    let s := process_instrument cfg pe.2 pe.1 r
    let t := run_loop cfg rest s.remaining
    (t.1, s :: t.2)

/-- One data row of the cost sheet (COST_HEADERS, src/main.py line 48)
below the header: product cell, quantity and dollar-cost cells as
_parse_num reads them (none models an unparseable cell, which
_parse_num maps to 0.0), and the stored average. -/
structure CostRow where
  product : String
  qty : Option ℚ
  cost : Option ℚ
  avg : ℚ
deriving DecidableEq

/-- _parse_num (src/main.py lines 85-98) on a cell: unparseable input is
0.0, otherwise the numeric value. -/
def pnum : Option ℚ → ℚ
  | none => 0
  | some v => v

/-- upsert_cost (src/main.py lines 455-476) on the data rows below the
header: update the first row whose product cell, stripped and
uppercased, equals the product, adding quantity and cost and recomputing
the average with the explicit zero guard; append a fresh row when no row
matches. -/
def upsert_cost : List CostRow → String → ℚ → ℚ → List CostRow
  | [], product, add_qty, add_cost =>
    [⟨product, some add_qty, some add_cost,
      if 0 < add_qty then add_cost / add_qty else 0⟩]
  | row :: rest, product, add_qty, add_cost =>
    if py_upper (py_strip row.product) == product then
      ⟨product, some (pnum row.qty + add_qty), some (pnum row.cost + add_cost),
       if 0 < pnum row.qty + add_qty
       then (pnum row.cost + add_cost) / (pnum row.qty + add_qty) else 0⟩ :: rest
    else row :: upsert_cost rest product add_qty add_cost

/-- A raw portfolio item of the get_portfolios response; each field is
the first present, non-empty alias g() would resolve (uuid / id /
portfolio_uuid, and name / portfolio_name), none when all are absent. -/
structure RawPortfolio where
  uuid : Option String
  name : Option String

/-- A decoded portfolio entry. -/
structure Portfolio where
  id : String
  name : String
deriving DecidableEq

/-- list_portfolios (src/main.py lines 207-217): keep the items with a
non-empty id, in order. -/
def list_portfolios (raw : List RawPortfolio) : List Portfolio :=
  raw.foldr (fun p acc =>
    if p.uuid.getD "" ≠ "" then ⟨p.uuid.getD "", p.name.getD ""⟩ :: acc else acc) []

/-- resolve_portfolio_uuid (src/main.py lines 253-261): explicit id
first, else the first case-insensitive trimmed name match among the
enumerated portfolios, else none meaning the default portfolio of the
credential. -/
def resolve_portfolio_uuid (portfolio_id portfolio_name : String)
    (raw : List RawPortfolio) : Option String :=
  if portfolio_id ≠ "" then some portfolio_id
  else if portfolio_name ≠ "" then
    ((list_portfolios raw).find?
      (fun p => py_lower (py_strip p.name) == py_lower (py_strip portfolio_name))).map
      Portfolio.id
  else none

/-- One account of a portfolio as the sweep reads it: the resolved
currency alias and the resolved available amount. -/
structure Account where
  currency : String
  available : ℚ

/-- A portfolio together with its accounts read; Except.error models the
accounts_for_portfolio call failing, which the sweep turns into an empty
list (src/main.py line 335). -/
structure SweepPortfolio where
  id : String
  name : String
  accounts : Except String (List Account)

/-- One move_portfolio_funds call actually issued to the venue. -/
structure Move where
  source : String
  target : String
  currency : String
  amount : ℚ
deriving DecidableEq

/-- Python `a or b` on an optional string: the string when present and
non-empty, else the fallback. -/
def pyOr (o : Option String) (dflt : String) : String :=
  match o with
  | some s => if s = "" then dflt else s
  | none => dflt

/-- The body of sweep_usd_usdc_into for one enumerated portfolio,
src/main.py lines 325-346. The skip guard is literally
src == (target or src) and target is not None. A move is issued (the
venue is called) for USD or USDC accounts at or above the dust
threshold, with target `target or src`; under dry-run no call is made
but the row is still logged. moveOk models whether the issued call
succeeded. -/
def sweep_portfolio (cfg : Config) (moveOk : Bool) (target : Option String)
    (p : SweepPortfolio) : List Move × List LogRow :=
  let src := p.id
  if src = pyOr target src ∧ target ≠ none then ([], [])
  else
    let accts := match p.accounts with
      | Except.error _ => []
      | Except.ok l => l
    accts.foldl (fun acc a =>
      let ccy := py_upper a.currency
      if (ccy = "USD" ∨ ccy = "USDC") ∧ cfg.sweepMin ≤ a.available then
        let tgt := pyOr target src
        let issued := if cfg.dryRun then [] else [Move.mk src tgt ccy a.available]
        let status := if cfg.dryRun then "dry-run"
                      else if moveOk then "submitted" else "error"
        (acc.1 ++ issued,
         acc.2 ++ [⟨"CRYPTO-SWEEP", "",
                    if ccy = "USD" then some a.available else none,
                    none, "", status, "swept"⟩])
      else acc) ([], [])

/-- sweep_usd_usdc_into (src/main.py lines 315-346): nothing when the
sweep is disabled or the portfolio listing fails, else the concatenated
moves and rows over every enumerated portfolio. -/
def sweep_usd_usdc_into (cfg : Config) (moveOk : Bool) (target : Option String)
    (ports : Except String (List SweepPortfolio)) : List Move × List LogRow :=
  if cfg.autoSweep = false then ([], [])
  else
    match ports with
    | Except.error _ => ([], [])
    | Except.ok l =>
      l.foldl (fun acc p =>
        let r := sweep_portfolio cfg moveOk target p
        (acc.1 ++ r.1, acc.2 ++ r.2)) ([], [])

/-- Product metadata with every alias absent: all defaults apply, in
particular min_quote = 1.00 and quote increment 0.01. -/
def metaD : ProductMeta := ⟨none, none, none, none⟩

/-- Default-flavoured configuration with auto-convert ON (its env
default), used to exercise the convert branch: 5 percent per trade,
minimum notional 1.00, cost sheet off, no dry-run. -/
def cfgCX : Config := ⟨5, 1, true, false, false, false, 1⟩

/-- Venue behaviour that takes the convert branch: the target portfolio
holds 0 USD and 100 USDC, the conversion goes through, and the re-read
balance is 100 USD; the order then fills 0.001 base for 5 USD. -/
def envCX : InstrEnv :=
  ⟨Except.ok metaD, Except.ok (0, 100), true, Except.ok (100, 199 / 2),
   Except.ok "OID0", (1 / 1000, 5)⟩

/-- Configuration with auto-convert off and the cost sheet on. -/
def cfgA : Config := ⟨5, 1, false, true, false, false, 1⟩

/-- Venue behaviour whose fill polling exhausts with zero aggregates. -/
def envU : InstrEnv :=
  ⟨Except.ok metaD, Except.ok (0, 0), true, Except.ok (0, 0),
   Except.ok "OID1", (0, 0)⟩

/-- Venue behaviour whose order confirms: 1 base unit for 5 USD. -/
def envC : InstrEnv :=
  ⟨Except.ok metaD, Except.ok (0, 0), true, Except.ok (0, 0),
   Except.ok "OID2", (1, 5)⟩

/-- Configuration with auto-convert off and the cost sheet OFF (the env
default of ENABLE_COST_SHEET). -/
def cfgB : Config := ⟨5, 1, false, false, false, false, 1⟩

/-- Venue behaviour whose product-rules fetch raises. -/
def envErr : InstrEnv :=
  ⟨Except.error "ValueError: boom", Except.ok (0, 0), true, Except.ok (0, 0),
   Except.ok "OID3", (0, 0)⟩

/-- Sweep-flavoured configuration: auto-sweep on, dust threshold 1, no
dry-run. -/
def cfgS : Config := ⟨5, 1, false, false, false, true, 1⟩

/-- One enumerated portfolio A holding 5 USD available. -/
def portsA : List SweepPortfolio :=
  [⟨"A", "Default", Except.ok [⟨"USD", 5⟩]⟩]

lemma quantize_down_le (x : ℚ) (s : DecLit) (hx : 0 ≤ x) :
    quantize_down x s ≤ x := by
  unfold quantize_down truncq
  have h10 : (0 : ℚ) < 10 ^ s.d := by positivity
  rw [if_pos (by positivity : (0 : ℚ) ≤ x * 10 ^ s.d), div_le_iff₀ h10]
  exact_mod_cast Int.floor_le (x * 10 ^ s.d)

lemma quantize_down_unit (s : DecLit) :
    quantize_down ((1 : ℚ) / 10 ^ s.d) s = (1 : ℚ) / 10 ^ s.d := by
  unfold quantize_down truncq
  have h10 : (10 : ℚ) ^ s.d ≠ 0 := by positivity
  rw [div_mul_cancel₀ _ h10]
  norm_num

/-- C9: quantize_down rounds a non-negative input down to the decimal
exponent of the step literal (its result is below the input and an exact
integer multiple of 10 ^ (-d)); the coefficient of the step literal is
ignored entirely; the result can be a multiple of the step value for
every input only when the coefficient is 1, that is only when the step
is the power of ten 10 ^ (-d); and for step 0.25 the input 1.37 is
returned unchanged. -/
theorem C9_quantize_exponent (s : DecLit) (x : ℚ) (hk : 1 ≤ s.k) (hx : 0 ≤ x) :
    quantize_down x s ≤ x
    ∧ (∃ n : ℤ, quantize_down x s = (n : ℚ) / 10 ^ s.d)
    ∧ (∀ k2 : ℕ, quantize_down x ⟨k2, s.d⟩ = quantize_down x s)
    ∧ ((∀ y : ℚ, 0 ≤ y → ∃ n : ℤ, quantize_down y s = (n : ℚ) * s.val) → s.k = 1)
    ∧ quantize_down (137 / 100) ⟨25, 2⟩ = 137 / 100 := by
  refine ⟨quantize_down_le x s hx, ⟨_, rfl⟩, fun k2 => rfl, ?_,
    by norm_num [quantize_down, truncq]⟩
  intro h
  obtain ⟨n, hn⟩ := h ((1 : ℚ) / 10 ^ s.d) (by positivity)
  rw [quantize_down_unit, DecLit.val] at hn
  have h1 : (1 : ℚ) = n * s.k := by
    field_simp at hn
    linarith
  have h2 : (1 : ℤ) = n * s.k := by exact_mod_cast h1
  rcases Int.mul_eq_one_iff_eq_one_or_neg_one.mp h2.symm with ⟨hn1, hk1⟩ | ⟨hn1, hk1⟩
  · exact_mod_cast hk1
  · omega

/-- C9 witness: the theorem applied at step literal 0.25 and input 1.5,
whose quantization evaluates to 1.5 itself. -/
theorem C9_witness :
    1 ≤ (DecLit.mk 25 2).k ∧ 0 ≤ (3 / 2 : ℚ)
    ∧ quantize_down (3 / 2) ⟨25, 2⟩ ≤ (3 / 2 : ℚ)
    ∧ quantize_down (3 / 2) ⟨25, 2⟩ = 3 / 2 := by
  refine ⟨by norm_num, by norm_num, ?_, by norm_num [quantize_down, truncq]⟩
  exact (C9_quantize_exponent ⟨25, 2⟩ (3 / 2) (by norm_num) (by norm_num)).1

lemma round_half_even_intCast (n : ℤ) : round_half_even (n : ℚ) = n := by
  unfold round_half_even
  rw [Int.floor_intCast]
  norm_num

lemma round_half_even_le (y : ℚ) : (round_half_even y : ℚ) ≤ y + 1 / 2 := by
  have hfl := Int.floor_le y
  unfold round_half_even
  split_ifs with h1 h2 h3
  · linarith
  · push_cast
    linarith
  · linarith
  · push_cast
    have h4 : 1 / 2 ≤ y - ⌊y⌋ := not_lt.mp h1
    linarith

lemma round_half_even_ge (y : ℚ) : y - 1 / 2 ≤ (round_half_even y : ℚ) := by
  have hfl := Int.lt_floor_add_one y
  unfold round_half_even
  split_ifs with h1 h2 h3
  · linarith
  · push_cast
    linarith
  · have h4 : y - ⌊y⌋ ≤ 1 / 2 := not_lt.mp h2
    linarith
  · push_cast
    linarith

lemma fmt2_le (x : ℚ) : fmt2 x ≤ x + 1 / 200 := by
  unfold fmt2
  rw [div_le_iff₀ (by norm_num : (0 : ℚ) < 100)]
  have := round_half_even_le (x * 100)
  linarith

lemma fmt2_ge (x : ℚ) : x - 1 / 200 ≤ fmt2 x := by
  unfold fmt2
  rw [le_div_iff₀ (by norm_num : (0 : ℚ) < 100)]
  have := round_half_even_ge (x * 100)
  linarith

lemma fmt2_two_dec (n : ℤ) : fmt2 ((n : ℚ) / 100) = (n : ℚ) / 100 := by
  unfold fmt2
  rw [div_mul_cancel₀ _ (by norm_num : (100 : ℚ) ≠ 0), round_half_even_intCast]

lemma quantize_down_two_dec (x : ℚ) (s : DecLit) (hd : s.d ≤ 2) :
    ∃ n : ℤ, quantize_down x s = (n : ℚ) / 100 := by
  refine ⟨truncq (x * 10 ^ s.d) * 10 ^ (2 - s.d), ?_⟩
  have hpow : (10 : ℚ) ^ (2 - s.d) * 10 ^ s.d = 100 := by
    rw [← pow_add, Nat.sub_add_cancel hd]
    norm_num
  rw [quantize_down, div_eq_div_iff (by positivity) (by norm_num : (100 : ℚ) ≠ 0)]
  push_cast
  rw [mul_assoc, hpow]

/-- C2 counterexample. First part: with quote increment 0.25, instrument
minimum 0.50, configured minimum notional 1.315 and planned notional
1.316 (which passes the loop guard, fourth conjunct), the submitted
notional is 1.31: neither a multiple of the quote increment nor at least
the maximum of the two minima. Second part: with quote increment 0.001,
instrument minimum 0.50 and planned notional 1.2389, the quantized value
1.238 serializes through the two-decimal f-string as 1.24, ABOVE the
planned notional. -/
theorem C2_cex :
    place_buy_notional (329 / 250) ⟨25, 2⟩ (1 / 2) = 131 / 100
    ∧ ¬ (∃ n : ℤ, (131 : ℚ) / 100 = (n : ℚ) * (DecLit.mk 25 2).val)
    ∧ ¬ (max (263 / 200 : ℚ) (1 / 2) ≤ (131 : ℚ) / 100)
    ∧ max (263 / 200 : ℚ) (1 / 2) ≤ 329 / 250
    ∧ place_buy_notional (12389 / 10000) ⟨1, 3⟩ (1 / 2) = 124 / 100
    ∧ ¬ (place_buy_notional (12389 / 10000) ⟨1, 3⟩ (1 / 2) ≤ 12389 / 10000) := by
  refine ⟨?_, ?_, by rw [max_le_iff]; norm_num, by rw [max_le_iff]; norm_num, ?_, ?_⟩
  · rw [place_buy_notional]
    norm_num [quantize_down, truncq, fmt2, round_half_even, max_def]
  · rintro ⟨n, hn⟩
    rw [DecLit.val] at hn
    have h1 : (131 : ℚ) = n * 25 := by
      field_simp at hn
      linarith
    have h2 : (131 : ℤ) = n * 25 := by exact_mod_cast h1
    omega
  · rw [place_buy_notional]
    norm_num [quantize_down, truncq, fmt2, round_half_even, max_def]
  · rw [place_buy_notional]
    norm_num [quantize_down, truncq, fmt2, round_half_even, max_def]

/-- C2 amended: given the loop guard (planned notional at least the
instrument minimum) and a non-negative planned notional:
quantize_down(planned, inc) is at most the planned notional, is an
integer multiple of 10 ^ (-d) for d the digit count of the increment
literal, and a multiple of the increment itself when the increment
coefficient is 1; the submitted wire amount is the two-decimal half-even
serialization of max(minQuote, quantized value), hence always an integer
multiple of 0.01, at most 0.005 above the planned notional and at most
0.005 below the instrument minimum; the serialization is the identity on
two-decimal amounts, so when the increment literal has at most two
fractional digits and the instrument minimum is a two-decimal amount,
the submitted notional is at most the planned notional, at least the
instrument minimum, and equals that minimum verbatim or the quantized
value. The configured minimum notional is never consulted. -/
theorem C2_amended (planned mq : ℚ) (s : DecLit)
    (h0 : 0 ≤ planned) (hmq : mq ≤ planned) :
    quantize_down planned s ≤ planned
    ∧ (∃ n : ℤ, quantize_down planned s = (n : ℚ) / 10 ^ s.d)
    ∧ (s.k = 1 → ∃ n : ℤ, quantize_down planned s = (n : ℚ) * s.val)
    ∧ (∃ n : ℤ, place_buy_notional planned s mq = (n : ℚ) / 100)
    ∧ place_buy_notional planned s mq ≤ planned + 1 / 200
    ∧ mq - 1 / 200 ≤ place_buy_notional planned s mq
    ∧ (∀ n : ℤ, max mq (quantize_down planned s) = (n : ℚ) / 100 →
        place_buy_notional planned s mq = max mq (quantize_down planned s))
    ∧ (s.d ≤ 2 → (∃ m : ℤ, mq = (m : ℚ) / 100) →
        place_buy_notional planned s mq ≤ planned
        ∧ mq ≤ place_buy_notional planned s mq
        ∧ (place_buy_notional planned s mq = mq
            ∨ place_buy_notional planned s mq = quantize_down planned s)) := by
  have hqle : quantize_down planned s ≤ planned := quantize_down_le planned s h0
  have humax : max mq (quantize_down planned s) ≤ planned := max_le hmq hqle
  refine ⟨hqle, ⟨_, rfl⟩, ?_, ⟨_, rfl⟩, ?_, ?_, ?_, ?_⟩
  · intro hk1
    refine ⟨truncq (planned * 10 ^ s.d), ?_⟩
    rw [DecLit.val, hk1, quantize_down]
    push_cast
    ring
  · calc place_buy_notional planned s mq
        ≤ max mq (quantize_down planned s) + 1 / 200 := fmt2_le _
      _ ≤ planned + 1 / 200 := by linarith
  · have hf := fmt2_ge (max mq (quantize_down planned s))
    have h2 : mq ≤ max mq (quantize_down planned s) := le_max_left _ _
    calc mq - 1 / 200 ≤ max mq (quantize_down planned s) - 1 / 200 := by linarith
      _ ≤ place_buy_notional planned s mq := hf
  · intro n hn
    show fmt2 (max mq (quantize_down planned s)) = max mq (quantize_down planned s)
    rw [hn, fmt2_two_dec]
  · intro hd hex
    obtain ⟨m, hm⟩ := hex
    obtain ⟨n, hq⟩ := quantize_down_two_dec planned s hd
    have hid : place_buy_notional planned s mq
        = max mq (quantize_down planned s) := by
      show fmt2 (max mq (quantize_down planned s)) = max mq (quantize_down planned s)
      rcases max_choice mq (quantize_down planned s) with hmax | hmax
      · rw [hmax, hm, fmt2_two_dec]
      · rw [hmax, hq, fmt2_two_dec]
    rw [hid]
    exact ⟨humax, le_max_left _ _, max_choice _ _⟩

/-- C2 witness: the amended theorem applied at planned 2, increment
literal 0.25 and instrument minimum 1 (a two-decimal amount); the
submitted notional evaluates to 2. -/
theorem C2_witness :
    0 ≤ (2 : ℚ) ∧ (1 : ℚ) ≤ 2 ∧ (DecLit.mk 25 2).d ≤ 2
    ∧ (1 : ℚ) = ((100 : ℤ) : ℚ) / 100
    ∧ place_buy_notional 2 ⟨25, 2⟩ 1 ≤ 2
    ∧ (1 : ℚ) ≤ place_buy_notional 2 ⟨25, 2⟩ 1
    ∧ place_buy_notional 2 ⟨25, 2⟩ 1 = 2 := by
  have h := C2_amended 2 1 ⟨25, 2⟩ (by norm_num) (by norm_num)
  have h8 := h.2.2.2.2.2.2.2 (by norm_num) ⟨100, by norm_num⟩
  refine ⟨by norm_num, by norm_num, by norm_num, by norm_num, h8.1, h8.2.1, ?_⟩
  rw [place_buy_notional]
  norm_num [quantize_down, truncq, fmt2, round_half_even, max_def]

/-- C4 counterexample: the spec-modelled retry claim is false on the
code. Against a venue whose attempt 0 raises a rate-limit error and
whose every later attempt succeeds, the product-rules fetch returns the
attempt-0 error: no retry happens. -/
theorem C4_cex : ¬ spec_retry_for_fetch := by
  intro h
  have h2 := h (fun i => if i = 0 then Except.error "429 rate limit exceeded"
                         else Except.ok metaD) metaD rfl
    (by
      intro i hi
      have hne : i ≠ 0 := by omega
      simp [hne])
  simp [fetch_product_rules_run, fetch_product_rules, Except.map] at h2

/-- C4 amended: no venue call is wrapped by a retry policy. The
product-rules fetch performs exactly one venue call, and any exception
raised by it, transient-looking or not, propagates immediately. -/
theorem C4_amended (venue : ℕ → Except String ProductMeta) (e : String)
    (h : venue 0 = Except.error e) :
    fetch_product_rules_run venue = Except.error e := by
  unfold fetch_product_rules_run fetch_product_rules
  rw [h]
  rfl

/-- C4 witness: the amended theorem applied to a venue that raises a
timeout on its first attempt. -/
theorem C4_witness :
    (fun _ : ℕ => (Except.error "504 timeout" : Except String ProductMeta)) 0
        = Except.error "504 timeout"
    ∧ fetch_product_rules_run (fun _ => Except.error "504 timeout")
        = Except.error "504 timeout" :=
  ⟨rfl, C4_amended (fun _ => Except.error "504 timeout") "504 timeout" rfl⟩

lemma upsert_cost_no_match (p : String) (aq ac : ℚ) :
    ∀ (table : List CostRow),
      (∀ r ∈ table, (py_upper (py_strip r.product) == p) = false) →
      upsert_cost table p aq ac =
        table ++ [⟨p, some aq, some ac, if 0 < aq then ac / aq else 0⟩] := by
  intro table
  induction table with
  | nil => intro _; rfl
  | cons row rest ih =>
    intro h
    have hrow := h row (List.mem_cons_self row rest)
    simp only [upsert_cost, hrow, Bool.false_eq_true, if_false, List.cons_append]
    rw [ih (fun r hr => h r (List.mem_cons_of_mem row hr))]

lemma upsert_cost_match (p : String) (aq ac : ℚ) :
    ∀ (pre : List CostRow) (row : CostRow) (post : List CostRow),
      (∀ q ∈ pre, (py_upper (py_strip q.product) == p) = false) →
      (py_upper (py_strip row.product) == p) = true →
      upsert_cost (pre ++ row :: post) p aq ac =
        pre ++ ⟨p, some (pnum row.qty + aq), some (pnum row.cost + ac),
                if 0 < pnum row.qty + aq
                then (pnum row.cost + ac) / (pnum row.qty + aq) else 0⟩ :: post := by
  intro pre
  induction pre with
  | nil =>
    intro row post _ hrow
    simp only [List.nil_append, upsert_cost, hrow, if_true]
  | cons q pre ih =>
    intro row post hpre hrow
    have hq := hpre q (List.mem_cons_self q pre)
    simp only [List.cons_append, upsert_cost, hq, Bool.false_eq_true, if_false,
      List.append_eq]
    rw [ih row post (fun r hr => hpre r (List.mem_cons_of_mem q hr)) hrow]

/-- C10: the cost-basis upsert never divides by zero. When no row
matches and the added quantity is not positive, the appended row carries
average 0; when the first matching row plus the addition has
non-positive total quantity, the rewritten row carries average 0. In
both cases the division is skipped, exactly as the guards at lines 468
and 475 of src/main.py prescribe. -/
theorem C10_upsert_no_div_zero (table : List CostRow) (p : String) (aq ac : ℚ) :
    ((∀ r ∈ table, (py_upper (py_strip r.product) == p) = false) → aq ≤ 0 →
      upsert_cost table p aq ac = table ++ [⟨p, some aq, some ac, 0⟩])
    ∧ (∀ (pre : List CostRow) (row : CostRow) (post : List CostRow),
        table = pre ++ row :: post →
        (∀ q ∈ pre, (py_upper (py_strip q.product) == p) = false) →
        (py_upper (py_strip row.product) == p) = true →
        pnum row.qty + aq ≤ 0 →
        upsert_cost table p aq ac =
          pre ++ ⟨p, some (pnum row.qty + aq), some (pnum row.cost + ac), 0⟩ :: post) := by
  constructor
  · intro hnm hq
    rw [upsert_cost_no_match p aq ac table hnm, if_neg (not_lt.mpr hq)]
  · intro pre row post htab hpre hrow hq
    rw [htab, upsert_cost_match p aq ac pre row post hpre hrow, if_neg (not_lt.mpr hq)]

/-- C10 witness: inserting a non-positive quantity next to an unrelated
row writes average 0 instead of dividing. -/
theorem C10_witness :
    (-1 : ℚ) ≤ 0
    ∧ upsert_cost [⟨"BTC-USD", some 2, some 10, 5⟩] "ETH-USD" (-1) 3 =
        [⟨"BTC-USD", some 2, some 10, 5⟩, ⟨"ETH-USD", some (-1), some 3, 0⟩] := by
  refine ⟨by norm_num, ?_⟩
  have h := (C10_upsert_no_div_zero [⟨"BTC-USD", some 2, some 10, 5⟩] "ETH-USD" (-1) 3).1
    (by
      intro r hr
      simp only [List.mem_singleton] at hr
      rw [hr]
      rfl)
    (by norm_num)
  simpa using h

lemma find?_first {α : Type} (pr : α → Bool) :
    ∀ (l1 : List α) (a : α) (l2 : List α),
      (∀ b ∈ l1, pr b = false) → pr a = true →
      (l1 ++ a :: l2).find? pr = some a := by
  intro l1
  induction l1 with
  | nil =>
    intro a l2 _ ha
    rw [List.nil_append]
    exact List.find?_cons_of_pos _ ha
  | cons b l1 ih =>
    intro a l2 h ha
    have hb := h b (List.mem_cons_self b l1)
    rw [List.cons_append, List.find?_cons_of_neg _ (by simp [hb])]
    exact ih a l2 (fun c hc => h c (List.mem_cons_of_mem b hc)) ha

/-- C8: target-portfolio resolution priority. A non-empty configured id
is returned as is; with no id and no name, none (the default marker) is
returned; with no id and a name that matches no enumerated portfolio
under trim and case folding, none is returned; with no id and a
non-empty name, the id of the FIRST portfolio whose trimmed,
case-folded name equals the trimmed, case-folded configured name is
returned. -/
theorem C8_resolve_priority (pid pname : String) (raw : List RawPortfolio) :
    (pid ≠ "" → resolve_portfolio_uuid pid pname raw = some pid)
    ∧ (pid = "" → pname = "" → resolve_portfolio_uuid pid pname raw = none)
    ∧ (pid = "" →
        (∀ P ∈ list_portfolios raw,
          (py_lower (py_strip P.name) == py_lower (py_strip pname)) = false) →
        resolve_portfolio_uuid pid pname raw = none)
    ∧ (pid = "" → pname ≠ "" →
        ∀ (l1 : List Portfolio) (P : Portfolio) (l2 : List Portfolio),
          list_portfolios raw = l1 ++ P :: l2 →
          (∀ Q ∈ l1, (py_lower (py_strip Q.name) == py_lower (py_strip pname)) = false) →
          (py_lower (py_strip P.name) == py_lower (py_strip pname)) = true →
          resolve_portfolio_uuid pid pname raw = some P.id) := by
  refine ⟨?_, ?_, ?_, ?_⟩
  · intro h
    simp [resolve_portfolio_uuid, h]
  · intro h1 h2
    simp [resolve_portfolio_uuid, h1, h2]
  · intro h1 hall
    by_cases h2 : pname = ""
    · simp [resolve_portfolio_uuid, h1, h2]
    · have hfind : (list_portfolios raw).find?
          (fun p => py_lower (py_strip p.name) == py_lower (py_strip pname)) = none :=
        List.find?_eq_none.mpr (fun x hx => by simp [hall x hx])
      simp [resolve_portfolio_uuid, h1, h2, hfind]
  · intro h1 h2 l1 P l2 hsplit hl1 hP
    have hfind : (list_portfolios raw).find?
        (fun p => py_lower (py_strip p.name) == py_lower (py_strip pname)) = some P := by
      rw [hsplit]
      exact find?_first _ l1 P l2 hl1 hP
    simp [resolve_portfolio_uuid, h1, h2, hfind]

/-- C8 witness: with no configured id and configured name growth, the
second enumerated portfolio, whose display name is GROWTH with spaces,
is resolved by its id. -/
theorem C8_witness :
    ("" : String) = "" ∧ ("growth" : String) ≠ ""
    ∧ resolve_portfolio_uuid "" "growth"
        [⟨some "p1", some "Main"⟩, ⟨some "p2", some " GROWTH "⟩] = some "p2" := by
  refine ⟨rfl, by decide, ?_⟩
  exact (C8_resolve_priority "" "growth" [⟨some "p1", some "Main"⟩,
      ⟨some "p2", some " GROWTH "⟩]).2.2.2 rfl (by decide)
    [⟨"p1", "Main"⟩] ⟨"p2", " GROWTH "⟩ [] (by rfl) (by decide) (by decide)

/-- C3: at the failing input (no configured target portfolio, one
enumerated portfolio A holding 5 USD, sweep enabled, threshold 1, no
dry-run) the sweep issues exactly one move_portfolio_funds call, and its
source equals its target: with target None the source line 342 passes
target_portfolio_id or src, that is src itself, as the move target,
defeating the self-sweep skip guard of line 327. -/
theorem C3_eval :
    (sweep_usd_usdc_into cfgS true none (Except.ok portsA)).1
      = [⟨"A", "A", "USD", 5⟩]
    ∧ (Move.mk "A" "A" "USD" 5).source = (Move.mk "A" "A" "USD" 5).target := by
  exact ⟨rfl, rfl⟩

lemma spend_nonneg (v planned : ℚ) (hpl : 0 ≤ planned) :
    0 ≤ (if (if v > 0 then v else planned) ≠ 0
         then (if v > 0 then v else planned) else planned) := by
  by_cases hv : v > 0
  · by_cases hz : v ≠ 0
    · simpa [hv, hz] using le_of_lt hv
    · simp [hv, hz, hpl]
  · by_cases hz : planned ≠ 0 <;> simp [hv, hz, hpl]

lemma buy_phase_budget (cfg : Config) (env : InstrEnv) (pid : String)
    (rem planned min_required : ℚ) (rows0 : List LogRow)
    (hrem : 0 ≤ rem) (hpl : 0 ≤ planned) :
    0 ≤ (buy_phase cfg env pid rem planned min_required rows0).spend
    ∧ (buy_phase cfg env pid rem planned min_required rows0).remaining
        = max 0 (rem - (buy_phase cfg env pid rem planned min_required rows0).spend) := by
  by_cases hs : planned < min_required
  · simp only [buy_phase, if_pos hs]
    exact ⟨le_refl 0, by rw [sub_zero, max_eq_right hrem]⟩
  · cases hp : (if cfg.dryRun then (Except.ok "DRYRUN" : Except String String)
        else env.place) with
    | error e =>
      simp only [buy_phase, if_neg hs, hp]
      exact ⟨le_refl 0, by rw [sub_zero, max_eq_right hrem]⟩
    | ok oid =>
      simp only [buy_phase, if_neg hs, hp]
      exact ⟨spend_nonneg _ planned hpl, trivial⟩

lemma step_budget (cfg : Config) (env : InstrEnv) (pid : String) (r : ℚ)
    (hconv : cfg.autoConvert = false) (hp : 0 ≤ cfg.pct) (hr : 0 ≤ r) :
    0 ≤ (process_instrument cfg env pid r).spend
    ∧ (process_instrument cfg env pid r).remaining
        = max 0 (r - (process_instrument cfg env pid r).spend) := by
  cases hf : env.fetch with
  | error e =>
    simp only [process_instrument, hf]
    exact ⟨le_refl 0, by rw [sub_zero, max_eq_right hr]⟩
  | ok meta =>
    have hcond : ¬ (r * (cfg.pct / 100) < max cfg.minNotional (rules_of_meta meta).min_quote
        ∧ cfg.autoConvert = true) := by
      rintro ⟨-, hc⟩
      rw [hconv] at hc
      exact Bool.false_ne_true hc
    simp only [process_instrument, hf, if_neg hcond]
    exact buy_phase_budget cfg env pid r _ _ []
      hr (mul_nonneg hr (div_nonneg hp (by norm_num)))

lemma max_zero_sub_collapse (r s t : ℚ) (ht : 0 ≤ t) :
    max 0 (max 0 (r - s) - t) = max 0 (r - (s + t)) := by
  rcases le_total (r - s) 0 with h | h
  · rw [max_eq_left h, zero_sub, max_eq_left (neg_nonpos.mpr ht),
      max_eq_left (by linarith : r - (s + t) ≤ 0)]
  · rw [max_eq_right h, sub_sub]

lemma run_loop_budget (cfg : Config) (hconv : cfg.autoConvert = false)
    (hp : 0 ≤ cfg.pct) :
    ∀ (l : List (String × InstrEnv)) (r : ℚ), 0 ≤ r →
      0 ≤ ((run_loop cfg l r).2.map StepResult.spend).sum
      ∧ (run_loop cfg l r).1
          = max 0 (r - ((run_loop cfg l r).2.map StepResult.spend).sum)
      ∧ 0 ≤ (run_loop cfg l r).1
      ∧ List.Chain' (fun a b => b ≤ a)
          (r :: (run_loop cfg l r).2.map StepResult.remaining) := by
  intro l
  induction l with
  | nil =>
    intro r hr
    simp only [run_loop, List.map_nil, List.sum_nil]
    exact ⟨le_refl 0, by rw [sub_zero, max_eq_right hr], hr, List.chain'_singleton r⟩
  | cons pe rest ih =>
    intro r hr
    obtain ⟨hs0, hrem⟩ := step_budget cfg pe.2 pe.1 r hconv hp hr
    have hs_remnn : 0 ≤ (process_instrument cfg pe.2 pe.1 r).remaining := by
      rw [hrem]
      exact le_max_left 0 _
    have hs_le : (process_instrument cfg pe.2 pe.1 r).remaining ≤ r := by
      rw [hrem]
      calc max 0 (r - (process_instrument cfg pe.2 pe.1 r).spend)
          ≤ max 0 r := max_le_max (le_refl 0) (sub_le_self r hs0)
        _ = r := max_eq_right hr
    obtain ⟨ihsum, ihfin, ihnn, ihchain⟩ :=
      ih (process_instrument cfg pe.2 pe.1 r).remaining hs_remnn
    simp only [run_loop, List.map_cons, List.sum_cons]
    refine ⟨add_nonneg hs0 ihsum, ?_, ihnn, ?_⟩
    · rw [ihfin, hrem]
      rw [hrem] at ihsum
      exact max_zero_sub_collapse r _ _ ihsum
    · exact List.chain'_cons.mpr ⟨hs_le, ihchain⟩

/-- C1 amended: provided the convert branch never runs (auto-convert
disabled), the run-level remaining budget after the loop equals
max(0, initial minus the sum of per-instrument spends), where the spend
of an instrument is the confirmed quote value when positive, the planned
notional when confirmation is unavailable, and 0 for skipped or errored
instruments; the budget is never negative and the successive remainders
are monotonically non-increasing. The original claim fails because the
convert branch (src/main.py lines 518-523) resets the remaining budget
to a freshly read balance, which may exceed the prior value. -/
theorem C1_amended (cfg : Config) (l : List (String × InstrEnv)) (r0 : ℚ)
    (hconv : cfg.autoConvert = false) (hp : 0 ≤ cfg.pct) (hr : 0 ≤ r0) :
    (run_loop cfg l r0).1
      = max 0 (r0 - ((run_loop cfg l r0).2.map StepResult.spend).sum)
    ∧ 0 ≤ (run_loop cfg l r0).1
    ∧ List.Chain' (fun a b => b ≤ a)
        (r0 :: (run_loop cfg l r0).2.map StepResult.remaining) := by
  obtain ⟨-, h2, h3, h4⟩ := run_loop_budget cfg hconv hp l r0 hr
  exact ⟨h2, h3, h4⟩

/-- C1 witness: the amended theorem applied to a one-instrument run that
starts at budget 100, spends 5, and ends at 95. -/
theorem C1_witness :
    cfgA.autoConvert = false ∧ 0 ≤ cfgA.pct ∧ 0 ≤ (100 : ℚ)
    ∧ ((run_loop cfgA [("ETH-USD", envC)] 100).1
        = max 0 (100 - ((run_loop cfgA [("ETH-USD", envC)] 100).2.map StepResult.spend).sum)
      ∧ 0 ≤ (run_loop cfgA [("ETH-USD", envC)] 100).1
      ∧ List.Chain' (fun a b => b ≤ a)
          (100 :: (run_loop cfgA [("ETH-USD", envC)] 100).2.map StepResult.remaining))
    ∧ (run_loop cfgA [("ETH-USD", envC)] 100).1 = 95 := by
  refine ⟨rfl, by norm_num [cfgA], by norm_num,
    C1_amended cfgA [("ETH-USD", envC)] 100 rfl (by norm_num [cfgA]) (by norm_num), ?_⟩
  norm_num [run_loop, process_instrument, buy_phase, cfgA, envC, metaD, rules_of_meta,
    max_def, ite_self]

/-- C1 counterexample: with auto-convert enabled (its default), one
instrument starting from budget 10 takes the convert branch, the budget
is reset to the re-read balance 100, the order spends 5, and the run
ends at 95: the remaining budget has INCREASED beyond the initial 10 and
differs from initial minus total spend. -/
theorem C1_cex :
    (run_loop cfgCX [("BTC-USD", envCX)] 10).1 = 95
    ∧ ¬ ((run_loop cfgCX [("BTC-USD", envCX)] 10).1 ≤ 10)
    ∧ (run_loop cfgCX [("BTC-USD", envCX)] 10).1
        ≠ 10 - ((run_loop cfgCX [("BTC-USD", envCX)] 10).2.map StepResult.spend).sum := by
  have hq : quote_ccy "BTC-USD" = "USD" := rfl
  have h1 : (run_loop cfgCX [("BTC-USD", envCX)] 10).1 = 95 := by
    norm_num [run_loop, process_instrument, buy_phase, ensure_usd_liquidity_for, hq,
      cfgCX, envCX, metaD, rules_of_meta, max_def, min_def, ite_self]
  have h2 : ((run_loop cfgCX [("BTC-USD", envCX)] 10).2.map StepResult.spend).sum = 5 := by
    norm_num [run_loop, process_instrument, buy_phase, ensure_usd_liquidity_for, hq,
      cfgCX, envCX, metaD, rules_of_meta, max_def, min_def, ite_self]
  refine ⟨h1, by rw [h1]; norm_num, by rw [h1, h2]; norm_num⟩

/-- C5 counterexample: an order whose fill polling exhausts with zero
aggregates (first instrument) and an order that confirms (second
instrument) produce log rows with the SAME status cell, submitted; the
status does not reflect non-confirmation. The ledger is still untouched
for the unconfirmed one and written for the confirmed one. -/
theorem C5_cex :
    (process_instrument cfgA envU "BTC-USD" 100).outcome = Outcome.bought 0 5
    ∧ (process_instrument cfgA envU "BTC-USD" 100).upserts = []
    ∧ (process_instrument cfgA envU "BTC-USD" 100).rows.map LogRow.status = ["submitted"]
    ∧ (process_instrument cfgA envC "ETH-USD" 100).upserts = [("ETH-USD", 1, 5)]
    ∧ (process_instrument cfgA envC "ETH-USD" 100).rows.map LogRow.status
        = ["submitted"] := by
  refine ⟨?_, ?_, ?_, ?_, ?_⟩ <;>
    norm_num [process_instrument, buy_phase, cfgA, envU, envC, metaD, rules_of_meta,
      max_def, ite_self]

/-- C5 amended: when fill polling exhausts all attempts with zero
aggregated base quantity and quote value, the outcome carries base
quantity 0 (the quote value falls back to the planned notional, which is
also what the budget is debited by), no ledger upsert happens, and the
single log row has an empty BaseQty cell but status submitted, the very
status a confirmed order row carries: the status does not distinguish
non-confirmation from success. -/
theorem C5_amended (cfg : Config) (env : InstrEnv) (pid : String) (r : ℚ)
    (meta : ProductMeta) (oid : String)
    (hdry : cfg.dryRun = false)
    (hfetch : env.fetch = Except.ok meta)
    (hplace : env.place = Except.ok oid)
    (hpoll : env.poll = (0, 0))
    (hmin : max cfg.minNotional (rules_of_meta meta).min_quote ≤ r * (cfg.pct / 100)) :
    (process_instrument cfg env pid r).upserts = []
    ∧ (process_instrument cfg env pid r).outcome
        = Outcome.bought 0 (r * (cfg.pct / 100))
    ∧ (process_instrument cfg env pid r).rows
        = [⟨"CRYPTO-BUY", pid, some (r * (cfg.pct / 100)), none, oid, "submitted", ""⟩]
    ∧ (process_instrument cfg env pid r).remaining
        = max 0 (r - r * (cfg.pct / 100)) := by
  have hcond : ¬ (r * (cfg.pct / 100) < max cfg.minNotional (rules_of_meta meta).min_quote
      ∧ cfg.autoConvert = true) := by
    rintro ⟨h1, -⟩
    exact absurd hmin (not_le.mpr h1)
  have hskip : ¬ (r * (cfg.pct / 100)
      < max cfg.minNotional (rules_of_meta meta).min_quote) := not_lt.mpr hmin
  simp only [process_instrument, hfetch, if_neg hcond, buy_phase, if_neg hskip, hdry,
    Bool.false_eq_true, if_false, hplace, hpoll]
  norm_num [ite_self]

/-- C5 witness: the amended theorem applied to the exhausted-polling
environment at budget 100, where the planned notional is 5. -/
theorem C5_witness :
    cfgA.dryRun = false
    ∧ envU.fetch = Except.ok metaD ∧ envU.place = Except.ok "OID1"
    ∧ envU.poll = (0, 0)
    ∧ max cfgA.minNotional (rules_of_meta metaD).min_quote ≤ 100 * (cfgA.pct / 100)
    ∧ ((process_instrument cfgA envU "BTC-USD" 100).upserts = []
      ∧ (process_instrument cfgA envU "BTC-USD" 100).outcome
          = Outcome.bought 0 (100 * (cfgA.pct / 100))
      ∧ (process_instrument cfgA envU "BTC-USD" 100).rows
          = [⟨"CRYPTO-BUY", "BTC-USD", some (100 * (cfgA.pct / 100)), none, "OID1",
              "submitted", ""⟩]
      ∧ (process_instrument cfgA envU "BTC-USD" 100).remaining
          = max 0 (100 - 100 * (cfgA.pct / 100))) := by
  refine ⟨rfl, rfl, rfl, rfl, by norm_num [cfgA, metaD, rules_of_meta], ?_⟩
  exact C5_amended cfgA envU "BTC-USD" 100 metaD "OID1" rfl rfl rfl rfl
    (by norm_num [cfgA, metaD, rules_of_meta])

lemma buy_phase_upserts (cfg : Config) (env : InstrEnv) (pid : String)
    (rem planned min_required : ℚ) (rows0 : List LogRow) :
    (buy_phase cfg env pid rem planned min_required rows0).upserts =
      match (buy_phase cfg env pid rem planned min_required rows0).outcome with
      | Outcome.bought q c =>
          if cfg.enableCostSheet = true ∧ cfg.dryRun = false ∧ 0 < q ∧ 0 < c
          then [(pid, q, c)] else []
      | _ => [] := by
  by_cases hs : planned < min_required
  · simp only [buy_phase, if_pos hs]
  · cases hp : (if cfg.dryRun then (Except.ok "DRYRUN" : Except String String)
        else env.place) with
    | error e => simp only [buy_phase, if_neg hs, hp]
    | ok oid => simp only [buy_phase, if_neg hs, hp]

lemma process_upserts (cfg : Config) (env : InstrEnv) (pid : String) (r : ℚ) :
    (process_instrument cfg env pid r).upserts =
      match (process_instrument cfg env pid r).outcome with
      | Outcome.bought q c =>
          if cfg.enableCostSheet = true ∧ cfg.dryRun = false ∧ 0 < q ∧ 0 < c
          then [(pid, q, c)] else []
      | _ => [] := by
  cases hf : env.fetch with
  | error e => simp only [process_instrument, hf]
  | ok meta =>
    by_cases hc : (r * (cfg.pct / 100) < max cfg.minNotional (rules_of_meta meta).min_quote
        ∧ cfg.autoConvert = true)
    · simp only [process_instrument, hf, if_pos hc]
      cases he : ensure_usd_liquidity_for cfg env pid
          (max cfg.minNotional (rules_of_meta meta).min_quote - r * (cfg.pct / 100)) with
      | error e => simp only [he]
      | ok convRows =>
        simp only [he]
        cases hb : env.refreshBal with
        | error e => simp only [hb]
        | ok bal =>
          simp only [hb]
          exact buy_phase_upserts cfg env pid bal.1 (bal.1 * (cfg.pct / 100)) _ convRows
    · simp only [process_instrument, hf, if_neg hc]
      exact buy_phase_upserts cfg env pid r (r * (cfg.pct / 100)) _ []

/-- C6 counterexample: with the cost sheet disabled (the env default of
ENABLE_COST_SHEET), a Confirmed outcome with base quantity 1 > 0 and
quote cost 5 > 0 produces NO ledger mutation, refuting the unconditional
"exactly once per Confirmed outcome". -/
theorem C6_cex :
    (process_instrument cfgB envC "ETH-USD" 100).outcome = Outcome.bought 1 5
    ∧ (0 : ℚ) < 1 ∧ (0 : ℚ) < 5
    ∧ (process_instrument cfgB envC "ETH-USD" 100).upserts = [] := by
  refine ⟨?_, by norm_num, by norm_num, ?_⟩ <;>
    norm_num [process_instrument, buy_phase, cfgB, envC, metaD, rules_of_meta,
      max_def, ite_self]

/-- C6 amended: the upsert adds quantity and cost onto the first record
whose stripped, uppercased product cell equals the instrument id,
recomputing the average as cost over quantity guarded by positivity, and
appends a fresh record when none matches; and within the loop the upsert
is invoked exactly once per Confirmed outcome with positive quantity and
positive cost PROVIDED the cost sheet is enabled and the run is not a
dry-run, and never for a Skipped, Errored or zero-quantity (Unconfirmed)
outcome. -/
theorem C6_amended (table : List CostRow) (p : String) (aq ac : ℚ)
    (cfg : Config) (env : InstrEnv) (pid : String) (r : ℚ) :
    ((∀ row ∈ table, (py_upper (py_strip row.product) == p) = false) →
      upsert_cost table p aq ac =
        table ++ [⟨p, some aq, some ac, if 0 < aq then ac / aq else 0⟩])
    ∧ (∀ (pre : List CostRow) (row : CostRow) (post : List CostRow),
        table = pre ++ row :: post →
        (∀ q ∈ pre, (py_upper (py_strip q.product) == p) = false) →
        (py_upper (py_strip row.product) == p) = true →
        upsert_cost table p aq ac =
          pre ++ ⟨p, some (pnum row.qty + aq), some (pnum row.cost + ac),
                  if 0 < pnum row.qty + aq
                  then (pnum row.cost + ac) / (pnum row.qty + aq) else 0⟩ :: post)
    ∧ ((process_instrument cfg env pid r).upserts =
        match (process_instrument cfg env pid r).outcome with
        | Outcome.bought q c =>
            if cfg.enableCostSheet = true ∧ cfg.dryRun = false ∧ 0 < q ∧ 0 < c
            then [(pid, q, c)] else []
        | _ => []) := by
  refine ⟨fun h => upsert_cost_no_match p aq ac table h, ?_,
    process_upserts cfg env pid r⟩
  intro pre row post htab hpre hrow
  rw [htab]
  exact upsert_cost_match p aq ac pre row post hpre hrow

/-- C6 witness: the amended theorem applied to a one-row table matched
after stripping and uppercasing, and to the confirming environment with
the cost sheet enabled, where exactly one upsert is recorded. -/
theorem C6_witness :
    (py_upper (py_strip " eth-usd") == "ETH-USD") = true
    ∧ upsert_cost [⟨" eth-usd", some 1, some 10, 10⟩] "ETH-USD" 1 5 =
        [⟨"ETH-USD", some 2, some 15, 15 / 2⟩]
    ∧ (process_instrument cfgA envC "ETH-USD" 100).upserts =
        match (process_instrument cfgA envC "ETH-USD" 100).outcome with
        | Outcome.bought q c =>
            if cfgA.enableCostSheet = true ∧ cfgA.dryRun = false ∧ 0 < q ∧ 0 < c
            then [("ETH-USD", q, c)] else []
        | _ => [] := by
  have h := C6_amended [⟨" eth-usd", some 1, some 10, 10⟩] "ETH-USD" 1 5
    cfgA envC "ETH-USD" 100
  refine ⟨rfl, ?_, h.2.2⟩
  have h2 := h.2.1 [] ⟨" eth-usd", some 1, some 10, 10⟩ [] rfl
    (by intro q hq; cases hq) rfl
  simp only [List.nil_append] at h2
  rw [h2]
  norm_num [pnum]

lemma ensure_rows_convert (cfg : Config) (env : InstrEnv) (pid : String) (need : ℚ)
    (rows : List LogRow)
    (h : ensure_usd_liquidity_for cfg env pid need = Except.ok rows) :
    ∀ row ∈ rows, row.action = "CRYPTO-CONVERT" := by
  simp only [ensure_usd_liquidity_for] at h
  split at h
  · simp only [Except.ok.injEq] at h
    subst h
    intro row hrow
    cases hrow
  · split at h
    · simp only [Except.ok.injEq] at h
      subst h
      intro row hrow
      cases hrow
    · split at h
      · simp at h
      · split at h
        · simp only [Except.ok.injEq] at h
          subst h
          intro row hrow
          cases hrow
        · simp only [Except.ok.injEq] at h
          subst h
          intro row hrow
          simp only [List.mem_singleton] at hrow
          subst hrow
          rfl

lemma buy_phase_error (cfg : Config) (env : InstrEnv) (pid : String)
    (rem planned min_required : ℚ) (rows0 : List LogRow) (msg : String)
    (h : (buy_phase cfg env pid rem planned min_required rows0).outcome
        = Outcome.errored msg) :
    (buy_phase cfg env pid rem planned min_required rows0).rows
        = rows0 ++ [error_row pid msg]
    ∧ (buy_phase cfg env pid rem planned min_required rows0).upserts = [] := by
  by_cases hs : planned < min_required
  · simp only [buy_phase, if_pos hs] at h
    cases h
  · cases hp : (if cfg.dryRun then (Except.ok "DRYRUN" : Except String String)
        else env.place) with
    | error e =>
      simp only [buy_phase, if_neg hs, hp] at h ⊢
      simp only [Outcome.errored.injEq] at h
      subst h
      refine ⟨?_, ?_⟩ <;> simp
    | ok oid =>
      simp only [buy_phase, if_neg hs, hp] at h
      cases h

lemma process_error (cfg : Config) (env : InstrEnv) (pid : String) (r : ℚ) (msg : String)
    (h : (process_instrument cfg env pid r).outcome = Outcome.errored msg) :
    ∃ rows0, (process_instrument cfg env pid r).rows = rows0 ++ [error_row pid msg]
      ∧ (∀ row ∈ rows0, row.action = "CRYPTO-CONVERT")
      ∧ (process_instrument cfg env pid r).upserts = [] := by
  cases hf : env.fetch with
  | error e =>
    simp only [process_instrument, hf] at h ⊢
    simp only [Outcome.errored.injEq] at h
    subst h
    refine ⟨[], by simp, ?_, by simp⟩
    intro row hrow
    cases hrow
  | ok meta =>
    by_cases hc : (r * (cfg.pct / 100) < max cfg.minNotional (rules_of_meta meta).min_quote
        ∧ cfg.autoConvert = true)
    · simp only [process_instrument, hf, if_pos hc] at h ⊢
      cases he : ensure_usd_liquidity_for cfg env pid
          (max cfg.minNotional (rules_of_meta meta).min_quote - r * (cfg.pct / 100)) with
      | error e =>
        simp only [he] at h ⊢
        simp only [Outcome.errored.injEq] at h
        subst h
        refine ⟨[], by simp, ?_, by simp⟩
        intro row hrow
        cases hrow
      | ok convRows =>
        simp only [he] at h ⊢
        cases hb : env.refreshBal with
        | error e =>
          simp only [hb] at h ⊢
          simp only [Outcome.errored.injEq] at h
          subst h
          refine ⟨convRows, by simp,
            ensure_rows_convert cfg env pid _ convRows he, by simp⟩
        | ok bal =>
          simp only [hb] at h ⊢
          obtain ⟨hrows, hups⟩ := buy_phase_error cfg env pid bal.1
            (bal.1 * (cfg.pct / 100)) _ convRows msg h
          exact ⟨convRows, hrows, ensure_rows_convert cfg env pid _ convRows he, hups⟩
    · simp only [process_instrument, hf, if_neg hc] at h ⊢
      obtain ⟨hrows, hups⟩ := buy_phase_error cfg env pid r
        (r * (cfg.pct / 100)) _ [] msg h
      refine ⟨[], hrows, ?_, hups⟩
      intro row hrow
      cases hrow

/-- C7: the instrument loop never aborts early (one StepResult per input
instrument, whatever happens), and whenever an instrument ends in the
Errored outcome, its appended rows contain exactly one CRYPTO-BUY-ERROR
row, that row carries the exception text (type name and message), and no
ledger upsert is made for the instrument. -/
theorem C7_loop_isolation (cfg : Config) (l : List (String × InstrEnv)) (r : ℚ)
    (env : InstrEnv) (pid : String) (r2 : ℚ) (msg : String) :
    (run_loop cfg l r).2.length = l.length
    ∧ ((process_instrument cfg env pid r2).outcome = Outcome.errored msg →
        (process_instrument cfg env pid r2).rows.countP
            (fun row => row.action == "CRYPTO-BUY-ERROR") = 1
        ∧ error_row pid msg ∈ (process_instrument cfg env pid r2).rows
        ∧ (process_instrument cfg env pid r2).upserts = []) := by
  constructor
  · induction l generalizing r with
    | nil => rfl
    | cons pe rest ih =>
      simp only [run_loop, List.length_cons]
      rw [ih]
  · intro h
    obtain ⟨rows0, hrows, hconv2, hups⟩ := process_error cfg env pid r2 msg h
    refine ⟨?_, ?_, hups⟩
    · rw [hrows, List.countP_append]
      have h0 : rows0.countP (fun row => row.action == "CRYPTO-BUY-ERROR") = 0 := by
        rw [List.countP_eq_zero]
        intro row hrow
        simp [hconv2 row hrow]
      rw [h0]
      simp [error_row, List.countP_cons]
    · rw [hrows]
      exact List.mem_append_right rows0 (List.mem_singleton_self _)

/-- C7 witness: the theorem applied to an instrument whose product-rules
fetch raises ValueError boom, inside a two-instrument run that still
yields two results. -/
theorem C7_witness :
    (process_instrument cfgA envErr "BTC-USD" 100).outcome
        = Outcome.errored "ValueError: boom"
    ∧ (run_loop cfgA [("BTC-USD", envErr), ("ETH-USD", envC)] 100).2.length = 2
    ∧ (process_instrument cfgA envErr "BTC-USD" 100).rows.countP
        (fun row => row.action == "CRYPTO-BUY-ERROR") = 1
    ∧ error_row "BTC-USD" "ValueError: boom"
        ∈ (process_instrument cfgA envErr "BTC-USD" 100).rows
    ∧ (process_instrument cfgA envErr "BTC-USD" 100).upserts = [] := by
  have houtcome : (process_instrument cfgA envErr "BTC-USD" 100).outcome
      = Outcome.errored "ValueError: boom" := by
    simp [process_instrument, envErr]
  have h := C7_loop_isolation cfgA [("BTC-USD", envErr), ("ETH-USD", envC)] 100
    envErr "BTC-USD" 100 "ValueError: boom"
  exact ⟨houtcome, by simpa using h.1, (h.2 houtcome).1, (h.2 houtcome).2.1,
    (h.2 houtcome).2.2⟩

end CryptoBuyer
